import Mathlib

/-!
Shallow embedding of the core logic of the Excel Hyperlink Converter Bot
(`src/excel_hyperlink_bot.py`): the content classifier, the column
analyzer, the column converter and the batch orchestrator.  Python
strings are modelled as lists of characters; worksheet cells as a
structure of value, hyperlink target and font; a worksheet column as a
list of cells.
-/

/-- Python strings are modelled as lists of characters. -/
abbrev Str := List Char

/-- Whitespace characters recognised by Python's str.strip and the regex
class \s (the ASCII part). -/
def isSpaceChar (c : Char) : Bool :=
  c == ' ' || c == '\t' || c == '\n' || c == '\r' || c == '\x0b' || c == '\x0c'

/-- Python str.strip: drop leading and trailing whitespace. -/
def pyStrip (s : Str) : Str :=
  ((s.dropWhile isSpaceChar).reverse.dropWhile isSpaceChar).reverse

/-- Python str.lower (ASCII case folding). -/
def pyLower (s : Str) : Str := s.map Char.toLower

/-- Python substring containment, the `in` operator on strings:
some suffix of s has pat as a prefix. -/
def containsSub (s pat : Str) : Bool :=
  (List.range (s.length + 1)).any (fun i => pat.isPrefixOf (s.drop i))

/-- Characters of the email regex's local part class [a-zA-Z0-9._%+-]. -/
def localChar (c : Char) : Bool :=
  c.isAlphanum || c == '.' || c == '_' || c == '%' || c == '+' || c == '-'

/-- Characters of the email regex's domain class [a-zA-Z0-9.-]. -/
def domChar (c : Char) : Bool :=
  c.isAlphanum || c == '.' || c == '-'

/-- Anchored match of the email regex's tail [a-zA-Z0-9.-]+\.[a-zA-Z]{2,}$:
some dot position splits a nonempty run of domain characters from a
top-level domain of at least two letters reaching the end. -/
def domainTail (r : Str) : Bool :=
  (List.range r.length).any (fun i =>
    !(i == 0) && (r.getD i ' ' == '.') && (r.take i).all domChar
      && decide (2 ≤ (r.drop (i + 1)).length) && (r.drop (i + 1)).all Char.isAlpha)

/-- Full anchored match of the email regex
^[a-zA-Z0-9._%+-]+@[a-zA-Z0-9.-]+\.[a-zA-Z]{2,}$ from is_valid_email.
The local part is the segment before the first '@' (the local class
excludes '@'), and the rest must match the domain tail. -/
def emailMatch (s : Str) : Bool :=
  match s.dropWhile (· != '@') with
  | [] => false
  | _ :: rest =>
      !(s.takeWhile (· != '@')).isEmpty
        && (s.takeWhile (· != '@')).all localChar
        && domainTail rest

/-- is_valid_email from the source: strip, then anchored email regex. -/
def is_valid_email (text : Str) : Bool :=
  emailMatch (pyStrip text)

/-- Characters of the website regex's host class [a-zA-Z0-9-]. -/
def hostChar (c : Char) : Bool :=
  c.isAlphanum || c == '-'

/-- The optional trailing path of the website regex, (?:/\S*)?$:
either nothing remains, or a '/' followed by non-whitespace characters. -/
def pathTail : Str → Bool
  | [] => true
  | '/' :: rest => rest.all (fun c => !isSpaceChar c)
  | _ => false

/-- The optional second domain label of the website regex,
(?:\.[a-zA-Z]{2,})?(?:/\S*)?$. -/
def secondTld (r : Str) : Bool :=
  pathTail r ||
    match r with
    | '.' :: rest =>
        decide (2 ≤ (rest.takeWhile Char.isAlpha).length)
          && pathTail (rest.dropWhile Char.isAlpha)
    | _ => false

/-- Host-and-domain portion of the website regex,
[a-zA-Z0-9-]+\.[a-zA-Z]{2,}(?:\.[a-zA-Z]{2,})?(?:/\S*)?$. -/
def hostTail (s : Str) : Bool :=
  !(s.takeWhile hostChar).isEmpty &&
    match s.dropWhile hostChar with
    | '.' :: rest =>
        decide (2 ≤ (rest.takeWhile Char.isAlpha).length)
          && secondTld (rest.dropWhile Char.isAlpha)
    | _ => false

/-- Strip a literal prefix when present: one alternative of an optional
regex group. -/
def dropPre (p s : Str) : Option Str :=
  if p.isPrefixOf s then some (s.drop p.length) else none

/-- Full anchored match of the website regex
^(https?://)?(www\.)?[a-zA-Z0-9-]+\.[a-zA-Z]{2,}(?:\.[a-zA-Z]{2,})?(?:/\S*)?$:
each optional group is tried both ways, as regex backtracking would. -/
def websiteMatch (s : Str) : Bool :=
  [some s, dropPre ("http://".toList) s, dropPre ("https://".toList) s].any
    (fun o =>
      match o with
      | none => false
      | some s1 =>
          [some s1, dropPre ("www.".toList) s1].any
            (fun o2 =>
              match o2 with
              | none => false
              | some s2 => hostTail s2))

/-- The fixed list of common domain extensions from is_valid_website. -/
def common_domains : List Str :=
  [".com".toList, ".org".toList, ".net".toList, ".edu".toList, ".gov".toList,
   ".io".toList, ".co".toList, ".info".toList, ".in".toList,
   ".us".toList, ".uk".toList, ".ca".toList, ".au".toList, ".de".toList,
   ".fr".toList, ".jp".toList, ".cn".toList, ".br".toList, ".ru".toList,
   ".mx".toList, ".es".toList, ".it".toList, ".nl".toList, ".se".toList,
   ".no".toList, ".dk".toList, ".fi".toList, ".pl".toList, ".ch".toList]

/-- is_valid_website from the source: strip and lowercase, require a dot,
then accept on the website regex or on containing any common domain
extension. -/
def is_valid_website (text : Str) : Bool :=
  let t := pyLower (pyStrip text)
  if t.isEmpty then false
  else if !(t.contains '.') then false
  else websiteMatch t || common_domains.any (fun ext => containsSub t ext)

/-- is_valid_linkedin from the source: the stripped, lowercased value
contains the substring "linkedin.com". -/
def is_valid_linkedin (text : Str) : Bool :=
  containsSub (pyLower (pyStrip text)) ("linkedin.com".toList)

/-- format_website_url from the source: strip, then prefix https:// unless
the value already starts with http:// or https://. -/
def format_website_url (url : Str) : Str :=
  let u := pyStrip url
  if ("http://".toList).isPrefixOf u || ("https://".toList).isPrefixOf u then u
  else "https://".toList ++ u

/-- The classification labels returned by detect_content_type, together
with the "unknown" label that analyze_column can report. -/
inductive ContentType where
  | empty
  | email
  | linkedin
  | website
  | text
  | unknown
deriving DecidableEq

/-- detect_content_type from the source: strip, then the fixed first-match
chain empty, email, linkedin, website, text. -/
def detect_content_type (text : Str) : ContentType :=
  let t := pyStrip text
  if t.isEmpty then ContentType.empty
  else if is_valid_email t then ContentType.email
  else if is_valid_linkedin t then ContentType.linkedin
  else if is_valid_website t then ContentType.website
  else ContentType.text

/-- The font applied to converted cells, modelling
openpyxl.styles.Font(color=..., underline='single'). -/
structure CellFont where
  color : Str
  underline : Option Str
deriving DecidableEq

/-- A worksheet cell: value, hyperlink target and font. -/
structure Cell where
  value : Option Str
  hyperlink : Option Str
  font : Option CellFont
deriving DecidableEq

/-- A cell with no value, hyperlink or font. -/
def emptyCell : Cell := ⟨none, none, none⟩

/-- The configuration keys the core logic reads. -/
structure Config where
  hyperlink_color : Str
  max_rows_to_process : Nat
  supported_extensions : List Str
deriving DecidableEq

/-- The default configuration values of BotConfig. -/
def defaultConfig : Config :=
  { hyperlink_color := "0000FF".toList
    max_rows_to_process := 100000
    supported_extensions :=
      [".xlsx".toList, ".xlsm".toList, ".xltx".toList, ".xltm".toList] }

/-- The hyperlink font built by convert_column_to_hyperlinks:
configured color, single underline. -/
def hyperlinkFont (cfg : Config) : CellFont :=
  ⟨cfg.hyperlink_color, some ("single".toList)⟩

/-- The value string read from a cell:
str(cell.value).strip() if cell.value else "". -/
def cellText : Option Str → Str
  | none => []
  | some s => if s.isEmpty then [] else pyStrip s

/-- Insertion-ordered tally update, modelling the Python dict increment
content_types[t] = content_types.get(t, 0) + 1. -/
def tallyAdd : List (ContentType × Nat) → ContentType → List (ContentType × Nat)
  | [], t => [(t, 1)]
  | (u, k) :: rest, t =>
      if u = t then (u, k + 1) :: rest else (u, k) :: tallyAdd rest t

/-- Python max(items, key=count): the first item whose count is maximal
in iteration order (a later item replaces the best only when strictly
larger). -/
def maxBySnd : ContentType × Nat → List (ContentType × Nat) → ContentType × Nat
  | p, [] => p
  | p, q :: ps => maxBySnd (if p.2 < q.2 then q else p) ps

/-- The count stored for a type in the tally (first matching entry, zero
when absent). -/
def tallyCnt : List (ContentType × Nat) → ContentType → Nat
  | [], _ => 0
  | p :: rest, t => if p.1 = t then p.2 else tallyCnt rest t

/-- The tally never stores two entries with the same type. -/
def keysDistinct (acc : List (ContentType × Nat)) : Prop :=
  acc.Pairwise (fun p q => p.1 ≠ q.1)

/-- The tally analyze_column builds over the sampled values. -/
def buildTally (vals : List Str) : List (ContentType × Nat) :=
  vals.foldl
    (fun acc v => if v.isEmpty then acc else tallyAdd acc (detect_content_type v))
    []

/-- analyze_column from the source: sample the first min(100, max_row)
rows, tally detect_content_type over the non-empty values, and return
the entry with the highest count, or ("unknown", 0) if the tally is
empty. -/
def analyze_column (col : List (Option Str)) : ContentType × Nat :=
  let sampleSize := min 100 col.length
  match buildTally ((col.take sampleSize).map cellText) with
  | [] => (ContentType.unknown, 0)
  | p :: ps => maxBySnd p ps

/-- One iteration of the conversion loop of convert_column_to_hyperlinks:
read the value, skip if empty, classify, and for email, website or
linkedin set the hyperlink target and the font and report one
conversion. -/
def convertStep (cfg : Config) (c : Cell) : Cell × Nat :=
  if (cellText c.value).isEmpty then (c, 0)
  else
    match detect_content_type (cellText c.value) with
    | ContentType.email =>
        ({ c with hyperlink := some ("mailto:".toList ++ cellText c.value)
                  font := some (hyperlinkFont cfg) }, 1)
    | ContentType.website =>
        ({ c with hyperlink := some (format_website_url (cellText c.value))
                  font := some (hyperlinkFont cfg) }, 1)
    | ContentType.linkedin =>
        ({ c with hyperlink := some (format_website_url (cellText c.value))
                  font := some (hyperlinkFont cfg) }, 1)
    | _ => (c, 0)

/-- convert_column_to_hyperlinks from the source, conversion state only:
process rows 1 to min(max_row, max_rows_to_process), leave the remaining
rows untouched, and return the new column with the converted count. -/
def convert_column (cfg : Config) (col : List Cell) : List Cell × Nat :=
  let total := min col.length cfg.max_rows_to_process
  let done := (col.take total).map (fun c => convertStep cfg c)
  (done.map Prod.fst ++ col.drop total, (done.map Prod.snd).sum)

/-- Does a cell get converted: non-empty value classified email, website
or linkedin. -/
def qualifies (c : Cell) : Bool :=
  let v := cellText c.value
  !v.isEmpty &&
    (detect_content_type v == ContentType.email
      || detect_content_type v == ContentType.website
      || detect_content_type v == ContentType.linkedin)

/-- The conversion loop with an explicit progress sink threaded through:
after each row the sink state is updated with the current row index and
the total. -/
def convertRowsSink {σ : Type} (cfg : Config) (upd : σ → Nat → Nat → σ)
    (total : Nat) : List Cell → Nat → σ → List Cell × Nat × σ
  | [], _, st => ([], 0, st)
  | c :: cs, row, st =>
      let p := convertStep cfg c
      let st1 := upd st row total
      let r := convertRowsSink cfg upd total cs (row + 1) st1
      (p.1 :: r.1, p.2 + r.2.1, r.2.2)

/-- convert_column_to_hyperlinks with its progress side channel made
explicit: the rows are processed exactly as in convert_column while the
sink state is updated once per row. -/
def convert_column_sink {σ : Type} (cfg : Config) (col : List Cell)
    (init : σ) (upd : σ → Nat → Nat → σ) : (List Cell × Nat) × σ :=
  let total := min col.length cfg.max_rows_to_process
  let r := convertRowsSink cfg upd total (col.take total) 1 init
  ((r.1 ++ col.drop total, r.2.1), r.2.2)

/-- The tqdm progress path: the bar counts one update per row. -/
def tqdmUpdate (st _row _total : Nat) : Nat := st + 1

/-- The plain-print fallback path: last_progress is raised to the current
percentage whenever it has advanced by at least ten points. -/
def plainUpdate (last row total : Nat) : Nat :=
  let progress := row * 100 / total
  if last + 10 ≤ progress then progress else last

/-- convert_column_to_hyperlinks when tqdm is available. -/
def convert_column_tqdm (cfg : Config) (col : List Cell) :
    (List Cell × Nat) × Nat :=
  convert_column_sink cfg col 0 tqdmUpdate

/-- convert_column_to_hyperlinks when tqdm is not installed. -/
def convert_column_plain (cfg : Config) (col : List Cell) :
    (List Cell × Nat) × Nat :=
  convert_column_sink cfg col 0 plainUpdate

/-- A directory entry seen by batch_process_folder: the file name and the
outcome of process_single_file on it, where an error value models a
raised exception. -/
structure FolderEntry where
  name : Str
  outcome : Except Str Bool

/-- The eligibility filter of batch_process_folder:
file.lower().endswith(ext) for some supported extension. -/
def eligibleFile (cfg : Config) (e : FolderEntry) : Bool :=
  cfg.supported_extensions.any (fun ext => ext.isSuffixOf (pyLower e.name))

/-- Did process_single_file succeed: it returned True without raising. -/
def fileSucceeded : Except Str Bool → Bool
  | Except.ok b => b
  | Except.error _ => false

/-- batch_process_folder from the source: report failure when the folder
is missing or holds no eligible file; otherwise run every eligible file,
counting successes and swallowing per-file exceptions, and return
whether at least one file succeeded. -/
def batch_process_folder (cfg : Config) (folderExists : Bool)
    (entries : List FolderEntry) : Bool :=
  if !folderExists then false
  else
    let excel := entries.filter (eligibleFile cfg)
    if excel.isEmpty then false
    else
      let success_count : Nat :=
        excel.foldl (fun n e => n + (if fileSucceeded e.outcome then 1 else 0)) 0
      decide (0 < success_count)

/-- A one-cell column holding plain text, for concrete checks. -/
def demoTextCol : List Cell := [⟨some ("Hello World".toList), none, none⟩]

/-- A one-cell column holding an email address, for concrete checks. -/
def demoEmailCol : List Cell := [⟨some ("jane@example.com".toList), none, none⟩]

/-- A three-value column of two emails and a note, for concrete checks. -/
def demoMixedCol : List (Option Str) :=
  [some ("a@b.com".toList), some ("c@d.com".toList), some ("notes".toList)]

/-! Helper lemmas about pyStrip. -/

/-- The head of a dropWhile result does not satisfy the predicate. -/
theorem head_dropWhile_false (p : Char → Bool) (l : Str) (c : Char)
    (h : (l.dropWhile p).head? = some c) : p c = false := by
  induction l with
  | nil => simp at h
  | cons a t ih =>
    rw [List.dropWhile_cons] at h
    by_cases hp : p a
    · exact ih (by simpa [hp] using h)
    · simp [hp] at h
      subst h
      simpa using hp

/-- dropWhile is the identity when the head does not satisfy the
predicate. -/
theorem dropWhile_eq_self_of_head (p : Char → Bool) (l : Str)
    (h : ∀ c, l.head? = some c → p c = false) : l.dropWhile p = l := by
  cases l with
  | nil => rfl
  | cons a t =>
    rw [List.dropWhile_cons]
    simp [h a rfl]

/-- A nonempty dropWhile result has the same last element as the input. -/
theorem getLast_dropWhile (p : Char → Bool) (l : Str)
    (h : l.dropWhile p ≠ []) : (l.dropWhile p).getLast? = l.getLast? := by
  induction l with
  | nil => simp at h
  | cons a t ih =>
    rw [List.dropWhile_cons] at h ⊢
    by_cases hp : p a
    · simp only [hp, if_true] at h ⊢
      have ht : t ≠ [] := by
        intro he
        rw [he] at h
        simp at h
      rw [ih h]
      cases t with
      | nil => exact absurd rfl ht
      | cons b t2 => rw [List.getLast?_cons_cons]
    · simp [hp]

/-- The first character of a stripped string is not whitespace. -/
theorem strip_head (s : Str) (c : Char)
    (h : (pyStrip s).head? = some c) : isSpaceChar c = false := by
  unfold pyStrip at h
  rw [List.head?_reverse] at h
  have hne : (s.dropWhile isSpaceChar).reverse.dropWhile isSpaceChar ≠ [] := by
    intro he
    rw [he] at h
    simp at h
  rw [getLast_dropWhile _ _ hne, List.getLast?_reverse] at h
  exact head_dropWhile_false isSpaceChar _ c h

/-- The last character of a stripped string is not whitespace. -/
theorem strip_getLast (s : Str) (c : Char)
    (h : (pyStrip s).getLast? = some c) : isSpaceChar c = false := by
  unfold pyStrip at h
  rw [List.getLast?_reverse] at h
  exact head_dropWhile_false isSpaceChar _ c h

/-- Stripping is idempotent. -/
theorem strip_idem (s : Str) : pyStrip (pyStrip s) = pyStrip s := by
  have h1 : (pyStrip s).dropWhile isSpaceChar = pyStrip s :=
    dropWhile_eq_self_of_head _ _ (strip_head s)
  show ((((pyStrip s).dropWhile isSpaceChar).reverse.dropWhile isSpaceChar)).reverse
      = pyStrip s
  rw [h1]
  have h2 : (pyStrip s).reverse.dropWhile isSpaceChar = (pyStrip s).reverse := by
    refine dropWhile_eq_self_of_head _ _ ?_
    intro c hc
    rw [List.head?_reverse] at hc
    exact strip_getLast s c hc
  rw [h2, List.reverse_reverse]

/-- Every character of the stripped string occurs in the original. -/
theorem strip_mem (s : Str) (c : Char) (h : c ∈ pyStrip s) : c ∈ s := by
  unfold pyStrip at h
  rw [List.mem_reverse] at h
  have h2 := (List.dropWhile_sublist isSpaceChar).mem h
  rw [List.mem_reverse] at h2
  exact (List.dropWhile_sublist isSpaceChar).mem h2

/-- is_valid_email ignores surrounding whitespace. -/
theorem email_strip (x : Str) : is_valid_email (pyStrip x) = is_valid_email x := by
  unfold is_valid_email
  rw [strip_idem]

/-- is_valid_linkedin ignores surrounding whitespace. -/
theorem linkedin_strip (x : Str) :
    is_valid_linkedin (pyStrip x) = is_valid_linkedin x := by
  unfold is_valid_linkedin
  rw [strip_idem]

/-- is_valid_website ignores surrounding whitespace. -/
theorem website_strip (x : Str) :
    is_valid_website (pyStrip x) = is_valid_website x := by
  unfold is_valid_website
  rw [strip_idem]

/-- detect_content_type ignores surrounding whitespace. -/
theorem detect_strip (x : Str) :
    detect_content_type (pyStrip x) = detect_content_type x := by
  unfold detect_content_type
  rw [strip_idem]

/-- A string whose first and last characters are not whitespace is
unchanged by stripping. -/
theorem strip_eq_self (l : Str)
    (h1 : ∀ c, l.head? = some c → isSpaceChar c = false)
    (h2 : ∀ c, l.getLast? = some c → isSpaceChar c = false) :
    pyStrip l = l := by
  unfold pyStrip
  rw [dropWhile_eq_self_of_head _ _ h1]
  rw [dropWhile_eq_self_of_head _ _ ?_, List.reverse_reverse]
  intro c hc
  rw [List.head?_reverse] at hc
  exact h2 c hc

/-- Every list is a prefix of itself followed by anything. -/
theorem isPrefixOf_append_self (l1 l2 : Str) : l1.isPrefixOf (l1 ++ l2) = true := by
  rw [List.isPrefixOf_iff_prefix]
  exact List.prefix_append l1 l2

/-- Unfolding equation for format_website_url. -/
theorem format_eq (x : Str) :
    format_website_url x =
      (if ("http://".toList).isPrefixOf (pyStrip x)
          || ("https://".toList).isPrefixOf (pyStrip x)
       then pyStrip x
       else "https://".toList ++ pyStrip x) := rfl

/-- A formatted URL carries no surrounding whitespace. -/
theorem strip_format (x : Str) :
    pyStrip (format_website_url x) = format_website_url x := by
  rw [format_eq]
  split
  · exact strip_idem x
  · apply strip_eq_self
    · intro c hc
      have hh : ("https://".toList ++ pyStrip x).head? = some 'h' := rfl
      rw [hh] at hc
      injection hc with hc2
      rw [← hc2]
      decide
    · intro c hc
      cases hu : pyStrip x with
      | nil =>
          rw [hu] at hc
          have hh : (("https://".toList ++ ([] : Str))).getLast? = some '/' := rfl
          rw [hh] at hc
          injection hc with hc2
          rw [← hc2]
          decide
      | cons a t =>
          rw [hu, List.getLast?_append_of_ne_nil _ (by simp)] at hc
          rw [← hu] at hc
          exact strip_getLast x c hc

/-- Unfolding equation for detect_content_type. -/
theorem detect_eq (x : Str) :
    detect_content_type x =
      (if (pyStrip x).isEmpty then ContentType.empty
       else if is_valid_email (pyStrip x) then ContentType.email
       else if is_valid_linkedin (pyStrip x) then ContentType.linkedin
       else if is_valid_website (pyStrip x) then ContentType.website
       else ContentType.text) := rfl

/-- C1: classify follows the fixed first-match-wins precedence: empty or
whitespace-only gives Empty; otherwise an email-pattern match gives
Email; otherwise containing "linkedin.com" case-insensitively gives
LinkedIn; otherwise the website heuristic gives Website; otherwise Text.
Being a total function, exactly one ContentType is returned. -/
theorem claim_detect_precedence (x : Str) :
    detect_content_type x =
      (if pyStrip x = [] then ContentType.empty
       else if is_valid_email x then ContentType.email
       else if is_valid_linkedin x then ContentType.linkedin
       else if is_valid_website x then ContentType.website
       else ContentType.text) := by
  rw [detect_eq, email_strip, linkedin_strip, website_strip]
  by_cases h : pyStrip x = []
  · simp [h]
  · rw [if_neg h, if_neg ?_]
    simpa [List.isEmpty_iff] using h

/-- C5: format_website_url is idempotent, and it prefixes https:// exactly
when the stripped argument does not already start with http:// or
https://, performing no other rewriting. -/
theorem claim_format_url_idempotent (x : Str) :
    format_website_url (format_website_url x) = format_website_url x ∧
    format_website_url x =
      (if ("http://".toList).isPrefixOf (pyStrip x)
          || ("https://".toList).isPrefixOf (pyStrip x)
       then pyStrip x
       else "https://".toList ++ pyStrip x) := by
  refine ⟨?_, format_eq x⟩
  have hpre : (("http://".toList).isPrefixOf (format_website_url x)
      || ("https://".toList).isPrefixOf (format_website_url x)) = true := by
    rw [format_eq x]
    split
    · next hc => simpa using hc
    · simp [isPrefixOf_append_self]
  rw [format_eq (format_website_url x), strip_format]
  exact if_pos hpre

/-! Helper lemmas about the converter. -/

/-- A cell classified Empty or Text is left untouched by the conversion
step and contributes no count. -/
theorem step_preserve (cfg : Config) (c : Cell)
    (h : detect_content_type (cellText c.value) = ContentType.empty
      ∨ detect_content_type (cellText c.value) = ContentType.text) :
    convertStep cfg c = (c, 0) := by
  unfold convertStep
  by_cases hv : (cellText c.value).isEmpty = true
  · rw [if_pos hv]
  · rw [if_neg hv]
    rcases h with h | h <;> rw [h]

/-- The conversion step on an Email cell: mailto target, hyperlink font,
one conversion counted. -/
theorem step_email (cfg : Config) (c : Cell)
    (hv : (cellText c.value).isEmpty = false)
    (h : detect_content_type (cellText c.value) = ContentType.email) :
    convertStep cfg c =
      ({ c with hyperlink := some ("mailto:".toList ++ cellText c.value)
                font := some (hyperlinkFont cfg) }, 1) := by
  unfold convertStep
  rw [if_neg (by simp [hv]), h]

/-- The conversion step on a Website or LinkedIn cell: formatted URL
target, hyperlink font, one conversion counted. -/
theorem step_web (cfg : Config) (c : Cell)
    (hv : (cellText c.value).isEmpty = false)
    (h : detect_content_type (cellText c.value) = ContentType.website
      ∨ detect_content_type (cellText c.value) = ContentType.linkedin) :
    convertStep cfg c =
      ({ c with hyperlink := some (format_website_url (cellText c.value))
                font := some (hyperlinkFont cfg) }, 1) := by
  unfold convertStep
  rcases h with h | h <;> rw [if_neg (by simp [hv]), h]

/-- The count of the conversion step is one exactly on qualifying cells. -/
theorem step_snd (cfg : Config) (c : Cell) :
    (convertStep cfg c).2 = if qualifies c then 1 else 0 := by
  unfold convertStep qualifies
  by_cases hv : (cellText c.value).isEmpty = true
  · simp [hv]
  · cases hd : detect_content_type (cellText c.value) <;> simp [hv, hd]

/-- Unfolding the first component of convert_column. -/
theorem conv_fst (cfg : Config) (col : List Cell) :
    (convert_column cfg col).1 =
      (col.take (min col.length cfg.max_rows_to_process)).map
          (fun c => (convertStep cfg c).1)
        ++ col.drop (min col.length cfg.max_rows_to_process) := by
  simp only [convert_column]
  rw [List.map_map]
  rfl

/-- The converted count is the number of qualifying cells among the
processed prefix. -/
theorem conv_snd (cfg : Config) (col : List Cell) :
    (convert_column cfg col).2 =
      (col.take (min col.length cfg.max_rows_to_process)).countP qualifies := by
  simp only [convert_column]
  have h : ∀ l : List Cell,
      ((l.map (fun c => convertStep cfg c)).map Prod.snd).sum = l.countP qualifies := by
    intro l
    induction l with
    | nil => rfl
    | cons a t ih =>
        rw [List.map_cons, List.map_cons, List.sum_cons, ih, List.countP_cons,
          step_snd]
        by_cases hq : qualifies a = true <;> simp [hq, Nat.add_comm]
  exact h _

/-- Element access into the converted column: processed rows through the
conversion step, remaining rows untouched. -/
theorem conv_get (cfg : Config) (col : List Cell) (i : Nat) :
    ((convert_column cfg col).1)[i]? =
      if i < min col.length cfg.max_rows_to_process
      then (col[i]?).map (fun c => (convertStep cfg c).1)
      else col[i]? := by
  have htot : min col.length cfg.max_rows_to_process ≤ col.length :=
    Nat.min_le_left _ _
  have hlen : ((col.take (min col.length cfg.max_rows_to_process)).map
      (fun c => (convertStep cfg c).1)).length
        = min col.length cfg.max_rows_to_process := by
    rw [List.length_map, List.length_take]
    exact Nat.min_eq_left htot
  rw [conv_fst, List.getElem?_append]
  rw [hlen]
  by_cases hi : i < min col.length cfg.max_rows_to_process
  · rw [if_pos hi, if_pos hi, List.getElem?_map, List.getElem?_take, if_pos hi]
  · rw [if_neg hi, if_neg hi, List.getElem?_drop]
    congr 1
    omega

/-- The converted column has the same number of rows. -/
theorem conv_len (cfg : Config) (col : List Cell) :
    (convert_column cfg col).1.length = col.length := by
  rw [conv_fst, List.length_append, List.length_map, List.length_take,
    List.length_drop]
  omega

/-- detect_content_type never reports the analyzer-only label unknown. -/
theorem detect_ne_unknown (x : Str) :
    detect_content_type x ≠ ContentType.unknown := by
  rw [detect_eq]
  split_ifs <;> simp

/-- The cells produced by the sink-threaded loop do not depend on the
sink. -/
theorem sink_fst {σ : Type} (cfg : Config) (upd : σ → Nat → Nat → σ)
    (total : Nat) (l : List Cell) (row : Nat) (st : σ) :
    (convertRowsSink cfg upd total l row st).1 =
      l.map (fun c => (convertStep cfg c).1) := by
  induction l generalizing row st with
  | nil => rfl
  | cons a t ih =>
      simp only [convertRowsSink, List.map_cons]
      rw [ih]

/-- The count produced by the sink-threaded loop does not depend on the
sink. -/
theorem sink_snd {σ : Type} (cfg : Config) (upd : σ → Nat → Nat → σ)
    (total : Nat) (l : List Cell) (row : Nat) (st : σ) :
    (convertRowsSink cfg upd total l row st).2.1 =
      (l.map (fun c => (convertStep cfg c).2)).sum := by
  induction l generalizing row st with
  | nil => rfl
  | cons a t ih =>
      simp only [convertRowsSink, List.map_cons, List.sum_cons]
      rw [ih]

/-- The conversion result of the sink-threaded loop equals the plain
conversion, whatever sink is wired in. -/
theorem sink_result {σ : Type} (cfg : Config) (col : List Cell) (init : σ)
    (upd : σ → Nat → Nat → σ) :
    (convert_column_sink cfg col init upd).1 = convert_column cfg col := by
  simp only [convert_column_sink, convert_column]
  rw [sink_fst, sink_snd, List.map_map, List.map_map]
  rfl

/-- C9: the conversion outcome, cells and count alike, is identical on the
tqdm progress path and on the plain-print fallback path, and both agree
with the sink-free conversion. -/
theorem claim_progress_paths_equivalent (cfg : Config) (col : List Cell) :
    (convert_column_tqdm cfg col).1 = (convert_column_plain cfg col).1 ∧
    (convert_column_tqdm cfg col).1 = convert_column cfg col := by
  constructor
  · simp only [convert_column_tqdm, convert_column_plain, sink_result]
  · simp only [convert_column_tqdm, sink_result]

/-- C4: the converted count never exceeds the row extent nor the
configured cap on rows to process. -/
theorem claim_converted_count_le (cfg : Config) (col : List Cell) :
    (convert_column cfg col).2 ≤ min col.length cfg.max_rows_to_process := by
  rw [conv_snd]
  calc (col.take (min col.length cfg.max_rows_to_process)).countP qualifies
      ≤ (col.take (min col.length cfg.max_rows_to_process)).length :=
        List.countP_le_length qualifies
    _ ≤ min col.length cfg.max_rows_to_process := by
        rw [List.length_take]
        omega

/-- Element access (with default) into the converted column. -/
theorem conv_getD (cfg : Config) (col : List Cell) (i : Nat)
    (h : i < col.length) :
    (convert_column cfg col).1.getD i emptyCell =
      (if i < min col.length cfg.max_rows_to_process
       then (convertStep cfg (col.getD i emptyCell)).1
       else col.getD i emptyCell) := by
  have hsome : col[i]? = some (col.getD i emptyCell) := by
    rw [List.getD_eq_getElem?_getD]
    cases hx : col[i]? with
    | none =>
        rw [List.getElem?_eq_none_iff] at hx
        omega
    | some c => rfl
  rw [List.getD_eq_getElem?_getD, conv_get, hsome]
  by_cases hi : i < min col.length cfg.max_rows_to_process
  · rw [if_pos hi, if_pos hi]
    rfl
  · rw [if_neg hi, if_neg hi, List.getD_eq_getElem?_getD, hsome]
    rfl

/-- C2: a cell is rewritten only if it is classified Email, LinkedIn or
Website; every cell classified Empty or Text keeps its value, hyperlink
and font unchanged by the conversion. -/
theorem claim_convert_preserves_nonlinks (cfg : Config) (col : List Cell)
    (i : Nat) (h : i < col.length) :
    ((detect_content_type (cellText (col.getD i emptyCell).value) = ContentType.empty
        ∨ detect_content_type (cellText (col.getD i emptyCell).value) = ContentType.text) →
      (convert_column cfg col).1.getD i emptyCell = col.getD i emptyCell)
    ∧ ((convert_column cfg col).1.getD i emptyCell ≠ col.getD i emptyCell →
      (detect_content_type (cellText (col.getD i emptyCell).value) = ContentType.email
        ∨ detect_content_type (cellText (col.getD i emptyCell).value) = ContentType.linkedin
        ∨ detect_content_type (cellText (col.getD i emptyCell).value) = ContentType.website)) := by
  have hres := conv_getD cfg col i h
  constructor
  · intro hdet
    rw [hres]
    by_cases hi : i < min col.length cfg.max_rows_to_process
    · rw [if_pos hi]
      rw [step_preserve cfg _ hdet]
    · rw [if_neg hi]
  · intro hchanged
    by_contra hnot
    push_neg at hnot
    apply hchanged
    rw [hres]
    by_cases hi : i < min col.length cfg.max_rows_to_process
    · rw [if_pos hi]
      have hdet : detect_content_type (cellText (col.getD i emptyCell).value)
          = ContentType.empty
          ∨ detect_content_type (cellText (col.getD i emptyCell).value)
          = ContentType.text := by
        rcases hd : detect_content_type (cellText (col.getD i emptyCell).value) with
          _ | _ | _ | _ | _ | _
        · exact Or.inl rfl
        · exact absurd rfl (hd ▸ hnot.1)
        · exact absurd rfl (hd ▸ hnot.2.1)
        · exact absurd rfl (hd ▸ hnot.2.2)
        · exact Or.inr rfl
        · exact absurd hd (detect_ne_unknown _)
      rw [step_preserve cfg _ hdet]
    · rw [if_neg hi]

/-- C3: for each processed non-empty cell value, an Email classification
sets the mailto target, a Website or LinkedIn classification sets the
formatted URL target, both with the configured hyperlink font counting
one conversion each, and the converted count tallies exactly the
qualifying cells. -/
theorem claim_convert_sets_targets (cfg : Config) (col : List Cell) (i : Nat)
    (h : i < min col.length cfg.max_rows_to_process)
    (hv : cellText (col.getD i emptyCell).value ≠ []) :
    (detect_content_type (cellText (col.getD i emptyCell).value) = ContentType.email →
      (convert_column cfg col).1.getD i emptyCell =
        { col.getD i emptyCell with
            hyperlink := some ("mailto:".toList ++ cellText (col.getD i emptyCell).value)
            font := some (hyperlinkFont cfg) })
    ∧ ((detect_content_type (cellText (col.getD i emptyCell).value) = ContentType.website
        ∨ detect_content_type (cellText (col.getD i emptyCell).value) = ContentType.linkedin) →
      (convert_column cfg col).1.getD i emptyCell =
        { col.getD i emptyCell with
            hyperlink := some (format_website_url (cellText (col.getD i emptyCell).value))
            font := some (hyperlinkFont cfg) })
    ∧ ((detect_content_type (cellText (col.getD i emptyCell).value) = ContentType.email
        ∨ detect_content_type (cellText (col.getD i emptyCell).value) = ContentType.website
        ∨ detect_content_type (cellText (col.getD i emptyCell).value) = ContentType.linkedin) →
      (convertStep cfg (col.getD i emptyCell)).2 = 1)
    ∧ (convert_column cfg col).2 =
        (col.take (min col.length cfg.max_rows_to_process)).countP qualifies := by
  have hcol : i < col.length := lt_of_lt_of_le h (Nat.min_le_left _ _)
  have hres := conv_getD cfg col i hcol
  rw [if_pos h] at hres
  have hvb : (cellText (col.getD i emptyCell).value).isEmpty = false := by
    cases hx : (cellText (col.getD i emptyCell).value).isEmpty with
    | false => rfl
    | true => exact absurd (List.isEmpty_iff.mp hx) hv
  refine ⟨?_, ?_, ?_, conv_snd cfg col⟩
  · intro hdet
    rw [hres, step_email cfg _ hvb hdet]
  · intro hdet
    rw [hres, step_web cfg _ hvb hdet]
  · intro hdet
    rcases hdet with hdet | hdet | hdet
    · rw [step_email cfg _ hvb hdet]
    · rw [step_web cfg _ hvb (Or.inl hdet)]
    · rw [step_web cfg _ hvb (Or.inr hdet)]

/-- Concrete instance of the frame property: a plain-text cell is left
unchanged by the conversion. -/
theorem claim_convert_preserves_nonlinks_witness :
    0 < demoTextCol.length ∧
    (((detect_content_type (cellText (demoTextCol.getD 0 emptyCell).value) = ContentType.empty
        ∨ detect_content_type (cellText (demoTextCol.getD 0 emptyCell).value) = ContentType.text) →
      (convert_column defaultConfig demoTextCol).1.getD 0 emptyCell
        = demoTextCol.getD 0 emptyCell)
    ∧ ((convert_column defaultConfig demoTextCol).1.getD 0 emptyCell
        ≠ demoTextCol.getD 0 emptyCell →
      (detect_content_type (cellText (demoTextCol.getD 0 emptyCell).value) = ContentType.email
        ∨ detect_content_type (cellText (demoTextCol.getD 0 emptyCell).value) = ContentType.linkedin
        ∨ detect_content_type (cellText (demoTextCol.getD 0 emptyCell).value) = ContentType.website))) :=
  ⟨by decide, claim_convert_preserves_nonlinks defaultConfig demoTextCol 0 (by decide)⟩

/-- Concrete instance of the conversion property: the email cell
"jane@example.com" gets the mailto target. -/
theorem claim_convert_sets_targets_witness :
    (0 < min demoEmailCol.length defaultConfig.max_rows_to_process
      ∧ cellText (demoEmailCol.getD 0 emptyCell).value ≠ []) ∧
    ((detect_content_type (cellText (demoEmailCol.getD 0 emptyCell).value) = ContentType.email →
      (convert_column defaultConfig demoEmailCol).1.getD 0 emptyCell =
        { demoEmailCol.getD 0 emptyCell with
            hyperlink := some ("mailto:".toList ++ cellText (demoEmailCol.getD 0 emptyCell).value)
            font := some (hyperlinkFont defaultConfig) })
    ∧ ((detect_content_type (cellText (demoEmailCol.getD 0 emptyCell).value) = ContentType.website
        ∨ detect_content_type (cellText (demoEmailCol.getD 0 emptyCell).value) = ContentType.linkedin) →
      (convert_column defaultConfig demoEmailCol).1.getD 0 emptyCell =
        { demoEmailCol.getD 0 emptyCell with
            hyperlink := some (format_website_url (cellText (demoEmailCol.getD 0 emptyCell).value))
            font := some (hyperlinkFont defaultConfig) })
    ∧ ((detect_content_type (cellText (demoEmailCol.getD 0 emptyCell).value) = ContentType.email
        ∨ detect_content_type (cellText (demoEmailCol.getD 0 emptyCell).value) = ContentType.website
        ∨ detect_content_type (cellText (demoEmailCol.getD 0 emptyCell).value) = ContentType.linkedin) →
      (convertStep defaultConfig (demoEmailCol.getD 0 emptyCell)).2 = 1)
    ∧ (convert_column defaultConfig demoEmailCol).2 =
        (demoEmailCol.take
          (min demoEmailCol.length defaultConfig.max_rows_to_process)).countP qualifies) :=
  ⟨⟨by decide, by decide⟩,
    claim_convert_sets_targets defaultConfig demoEmailCol 0 (by decide) (by decide)⟩

/-- A string matching the email pattern contains an '@'. -/
theorem emailMatch_at (s : Str) (h : emailMatch s = true) : '@' ∈ s := by
  unfold emailMatch at h
  cases hd : s.dropWhile (· != '@') with
  | nil => rw [hd] at h; simp at h
  | cons a rest =>
      have ha : (a != '@') = false :=
        head_dropWhile_false _ s a (by rw [hd]; rfl)
      have haa : a = '@' := by simpa using ha
      subst haa
      have hm : '@' ∈ s.dropWhile (· != '@') := by
        rw [hd]
        exact List.mem_cons_self _ _
      exact (List.dropWhile_sublist _).mem hm

/-- An Email classification means the stripped value is nonempty and
passes is_valid_email. -/
theorem detect_email_inv (x : Str)
    (h : detect_content_type x = ContentType.email) :
    is_valid_email (pyStrip x) = true ∧ pyStrip x ≠ [] := by
  rw [detect_eq] at h
  by_cases h0 : (pyStrip x).isEmpty = true
  · rw [if_pos h0] at h
    exact absurd h (by decide)
  · rw [if_neg h0] at h
    have hne : pyStrip x ≠ [] := fun he => h0 (by simp [he])
    by_cases h1 : is_valid_email (pyStrip x) = true
    · exact ⟨h1, hne⟩
    · rw [if_neg h1] at h
      split_ifs at h

/-- C7 fails as literally stated: " a@b.co" is a non-empty string
classified Email, yet the string itself does not match the anchored
email pattern, its leading space being outside every character class. -/
theorem claim_email_shape_counterexample :
    ((" a@b.co".toList ≠ []
      ∧ detect_content_type (" a@b.co".toList) = ContentType.email)
      ∧ emailMatch (" a@b.co".toList) = false) := by
  decide

/-- C7 (amended): for every non-empty string x classified Email, '@'
occurs in x and the stripped x matches the anchored email pattern in
full. -/
theorem claim_email_shape_amended (x : Str) (_hne : x ≠ [])
    (h : detect_content_type x = ContentType.email) :
    '@' ∈ x ∧ emailMatch (pyStrip x) = true := by
  obtain ⟨hv, _⟩ := detect_email_inv x h
  have hm : emailMatch (pyStrip x) = true := by
    unfold is_valid_email at hv
    rwa [strip_idem] at hv
  exact ⟨strip_mem x '@' (emailMatch_at _ hm), hm⟩

/-- Concrete instance of the amended email-shape property at "a@b.co". -/
theorem claim_email_shape_amended_witness :
    ("a@b.co".toList ≠ []
      ∧ detect_content_type ("a@b.co".toList) = ContentType.email)
    ∧ ('@' ∈ "a@b.co".toList ∧ emailMatch (pyStrip ("a@b.co".toList)) = true) :=
  ⟨⟨by decide, by decide⟩,
    claim_email_shape_amended ("a@b.co".toList) (by decide) (by decide)⟩

/-- A character of a contained substring is a character of the string. -/
theorem containsSub_mem (s pat : Str) (c : Char)
    (h : containsSub s pat = true) (hc : c ∈ pat) : c ∈ s := by
  unfold containsSub at h
  obtain ⟨i, _, hp⟩ := List.any_eq_true.mp h
  rw [List.isPrefixOf_iff_prefix] at hp
  exact (List.drop_sublist i s).mem (hp.sublist.mem hc)

/-- Every common domain extension contains a dot. -/
theorem common_domains_dot : ∀ d ∈ common_domains, '.' ∈ d := by decide

/-- C10: a value whose stripped, lowercased form contains one of the fixed
common domain extensions is never classified Text (nor Empty): it is
classified Email, LinkedIn or Website, and a cell holding it is always
rewritten by the conversion step. -/
theorem claim_tld_never_text (x : Str) (cfg : Config)
    (hl : Option Str) (f : Option CellFont)
    (h : common_domains.any (fun d => containsSub (pyLower (pyStrip x)) d) = true) :
    (detect_content_type x = ContentType.email
      ∨ detect_content_type x = ContentType.linkedin
      ∨ detect_content_type x = ContentType.website)
    ∧ detect_content_type x ≠ ContentType.text
    ∧ (convertStep cfg ⟨some x, hl, f⟩).2 = 1 := by
  obtain ⟨d, hdmem, hdc⟩ := List.any_eq_true.mp h
  have hdot : '.' ∈ pyLower (pyStrip x) :=
    containsSub_mem _ _ '.' hdc (common_domains_dot d hdmem)
  have hlne : pyLower (pyStrip x) ≠ [] := List.ne_nil_of_mem hdot
  have hsne : pyStrip x ≠ [] := by
    intro he
    rw [pyLower, he] at hlne
    simp at hlne
  have hxne : x ≠ [] := by
    intro he
    rw [he] at hsne
    exact hsne rfl
  have hw : is_valid_website (pyStrip x) = true := by
    unfold is_valid_website
    rw [strip_idem]
    have hcont : (pyLower (pyStrip x)).contains '.' = true :=
      List.elem_eq_true_of_mem hdot
    rw [if_neg (by simp [List.isEmpty_iff, hlne]), if_neg (by simpa using hdot)]
    rw [h]
    simp
  have hdet : detect_content_type x = ContentType.email
      ∨ detect_content_type x = ContentType.linkedin
      ∨ detect_content_type x = ContentType.website := by
    rw [detect_eq]
    by_cases h0 : (pyStrip x).isEmpty = true
    · exact absurd (List.isEmpty_iff.mp h0) hsne
    · rw [if_neg h0]
      by_cases h1 : is_valid_email (pyStrip x) = true
      · rw [if_pos h1]
        exact Or.inl rfl
      · rw [if_neg h1]
        by_cases h2 : is_valid_linkedin (pyStrip x) = true
        · rw [if_pos h2]
          exact Or.inr (Or.inl rfl)
        · rw [if_neg h2, if_pos hw]
          exact Or.inr (Or.inr rfl)
  have hcv : cellText (some x) = pyStrip x := by
    show (if x.isEmpty = true then [] else pyStrip x) = pyStrip x
    rw [if_neg (by simp [List.isEmpty_iff, hxne])]
  have hq : qualifies ⟨some x, hl, f⟩ = true := by
    unfold qualifies
    show (!(cellText (some x)).isEmpty
      && (detect_content_type (cellText (some x)) == ContentType.email
        || detect_content_type (cellText (some x)) == ContentType.website
        || detect_content_type (cellText (some x)) == ContentType.linkedin)) = true
    rw [hcv, detect_strip]
    rcases hdet with hd | hd | hd <;>
      simp [hd, List.isEmpty_iff, hsne]
  refine ⟨hdet, ?_, ?_⟩
  · rcases hdet with hd | hd | hd <;> simp [hd]
  · rw [step_snd, if_pos hq]

/-- Concrete instance: "example.com" contains the extension ".com", is
classified Website, and its cell is converted. -/
theorem claim_tld_never_text_witness :
    (common_domains.any
      (fun d => containsSub (pyLower (pyStrip ("example.com".toList))) d) = true)
    ∧ ((detect_content_type ("example.com".toList) = ContentType.email
        ∨ detect_content_type ("example.com".toList) = ContentType.linkedin
        ∨ detect_content_type ("example.com".toList) = ContentType.website)
      ∧ detect_content_type ("example.com".toList) ≠ ContentType.text
      ∧ (convertStep defaultConfig
          ⟨some ("example.com".toList), none, none⟩).2 = 1) :=
  ⟨by decide,
    claim_tld_never_text ("example.com".toList) defaultConfig none none (by decide)⟩

/-- Counting successes by folding equals countP. -/
theorem success_fold_eq (l : List FolderEntry) (n : Nat) :
    l.foldl (fun n e => n + (if fileSucceeded e.outcome then 1 else 0)) n
      = n + l.countP (fun e => fileSucceeded e.outcome) := by
  induction l generalizing n with
  | nil => simp
  | cons a t ih =>
      rw [List.foldl_cons, ih, List.countP_cons]
      by_cases ha : fileSucceeded a.outcome = true <;> simp [ha] <;> omega

/-- C8: batch_process_folder is a total Boolean function (an error value
in an entry's outcome models a raised per-file exception, which is
swallowed): it reports failure when the folder is missing or no eligible
file exists, and otherwise returns true exactly when at least one
eligible file succeeded. -/
theorem claim_batch_partial_failure (cfg : Config) (folderExists : Bool)
    (entries : List FolderEntry) :
    batch_process_folder cfg folderExists entries =
      (folderExists && (entries.filter (eligibleFile cfg)).any
        (fun e => fileSucceeded e.outcome)) := by
  simp only [batch_process_folder]
  cases folderExists with
  | false => rfl
  | true =>
      rw [success_fold_eq]
      by_cases he : (entries.filter (eligibleFile cfg)).isEmpty = true
      · have hnil : entries.filter (eligibleFile cfg) = [] := List.isEmpty_iff.mp he
        rw [hnil]
        rfl
      · rw [if_neg (by simp), if_neg he]
        cases hany : (entries.filter (eligibleFile cfg)).any
            (fun e => fileSucceeded e.outcome) with
        | true =>
            obtain ⟨e, hmem, hp⟩ := List.any_eq_true.mp hany
            have hpos : 0 < (entries.filter (eligibleFile cfg)).countP
                (fun e => fileSucceeded e.outcome) :=
              List.countP_pos_iff.mpr ⟨e, hmem, hp⟩
            simp [hpos]
        | false =>
            have hz : (entries.filter (eligibleFile cfg)).countP
                (fun e => fileSucceeded e.outcome) = 0 := by
              rw [List.countP_eq_zero]
              intro e hmem
              intro hp
              have hc : (entries.filter (eligibleFile cfg)).any
                  (fun e => fileSucceeded e.outcome) = true := by
                rw [List.any_eq_true]
                exact ⟨e, hmem, hp⟩
              rw [hany] at hc
              exact Bool.false_ne_true hc
            simp [hz]

/-! Helper lemmas about the column analyzer's tally. -/

/-- Incrementing the tally raises exactly the count of the given type. -/
theorem tallyCnt_add (acc : List (ContentType × Nat)) (u t : ContentType) :
    tallyCnt (tallyAdd acc u) t =
      if u = t then tallyCnt acc t + 1 else tallyCnt acc t := by
  induction acc with
  | nil =>
      by_cases h : u = t <;> simp [tallyAdd, tallyCnt, h]
  | cons a rest ih =>
      obtain ⟨a1, a2⟩ := a
      simp only [tallyAdd]
      by_cases hau : a1 = u
      · rw [if_pos hau]
        subst hau
        by_cases h : a1 = t <;> simp [tallyCnt, h]
      · rw [if_neg hau]
        by_cases h : a1 = t
        · have hut : ¬u = t := fun he => hau (h.trans he.symm)
          simp [tallyCnt, h, hut]
        · simp [tallyCnt, h, ih]

/-- Every key of an updated tally is the added type or an existing key. -/
theorem tallyAdd_key (acc : List (ContentType × Nat)) (u : ContentType) :
    ∀ q ∈ tallyAdd acc u, q.1 = u ∨ ∃ p ∈ acc, q.1 = p.1 := by
  induction acc with
  | nil =>
      intro q hq
      simp only [tallyAdd] at hq
      rw [List.mem_singleton] at hq
      subst hq
      exact Or.inl rfl
  | cons a rest ih =>
      obtain ⟨a1, a2⟩ := a
      intro q hq
      simp only [tallyAdd] at hq
      by_cases hau : a1 = u
      · rw [if_pos hau] at hq
        rcases List.mem_cons.mp hq with hq | hq
        · subst hq
          exact Or.inr ⟨(a1, a2), List.mem_cons_self _ _, rfl⟩
        · exact Or.inr ⟨q, List.mem_cons_of_mem _ hq, rfl⟩
      · rw [if_neg hau] at hq
        rcases List.mem_cons.mp hq with hq | hq
        · subst hq
          exact Or.inr ⟨(a1, a2), List.mem_cons_self _ _, rfl⟩
        · rcases ih q hq with h | ⟨p, hp, he⟩
          · exact Or.inl h
          · exact Or.inr ⟨p, List.mem_cons_of_mem _ hp, he⟩

/-- Updating the tally preserves distinctness of its keys. -/
theorem tallyAdd_pairwise (acc : List (ContentType × Nat)) (u : ContentType)
    (h : keysDistinct acc) : keysDistinct (tallyAdd acc u) := by
  induction acc with
  | nil =>
      simp only [tallyAdd, keysDistinct]
      exact List.pairwise_singleton _ _
  | cons a rest ih =>
      obtain ⟨a1, a2⟩ := a
      rw [keysDistinct, List.pairwise_cons] at h
      obtain ⟨h1, h2⟩ := h
      simp only [tallyAdd]
      by_cases hau : a1 = u
      · rw [if_pos hau]
        rw [keysDistinct, List.pairwise_cons]
        exact ⟨fun q hq => h1 q hq, h2⟩
      · rw [if_neg hau]
        rw [keysDistinct, List.pairwise_cons]
        refine ⟨?_, ih h2⟩
        intro q hq
        rcases tallyAdd_key rest u q hq with he | ⟨p, hp, he⟩
        · rw [he]
          exact hau
        · rw [he]
          exact h1 p hp

/-- With distinct keys, a tally entry's count is read back faithfully. -/
theorem cnt_mem (acc : List (ContentType × Nat)) (h : keysDistinct acc)
    (p : ContentType × Nat) (hp : p ∈ acc) : tallyCnt acc p.1 = p.2 := by
  induction acc with
  | nil => exact absurd hp (List.not_mem_nil p)
  | cons a rest ih =>
      rw [keysDistinct, List.pairwise_cons] at h
      obtain ⟨h1, h2⟩ := h
      rcases List.mem_cons.mp hp with hp | hp
      · subst hp
        simp [tallyCnt]
      · have hne : a.1 ≠ p.1 := h1 p hp
        simp only [tallyCnt]
        rw [if_neg hne]
        exact ih h2 hp

/-- A type's tally count is zero or the count of some entry for it. -/
theorem cnt_cases (acc : List (ContentType × Nat)) (t : ContentType) :
    tallyCnt acc t = 0
      ∨ ∃ p, p ∈ acc ∧ p.1 = t ∧ p.2 = tallyCnt acc t := by
  induction acc with
  | nil => exact Or.inl rfl
  | cons a rest ih =>
      by_cases ha : a.1 = t
      · refine Or.inr ⟨a, List.mem_cons_self _ _, ha, ?_⟩
        simp [tallyCnt, ha]
      · simp only [tallyCnt]
        rw [if_neg ha]
        rcases ih with h | ⟨p, hp, he, hc⟩
        · exact Or.inl h
        · exact Or.inr ⟨p, List.mem_cons_of_mem _ hp, he, hc⟩

/-- The Python max over the tally is one of its items. -/
theorem maxBySnd_mem (ps : List (ContentType × Nat)) :
    ∀ p, maxBySnd p ps = p ∨ maxBySnd p ps ∈ ps := by
  induction ps with
  | nil =>
      intro p
      exact Or.inl rfl
  | cons q ps ih =>
      intro p
      simp only [maxBySnd]
      rcases ih (if p.2 < q.2 then q else p) with h | h
      · rw [h]
        by_cases hc : p.2 < q.2
        · rw [if_pos hc]
          exact Or.inr (List.mem_cons_self q ps)
        · rw [if_neg hc]
          exact Or.inl rfl
      · exact Or.inr (List.mem_cons_of_mem q h)

/-- The Python max over the tally dominates every item's count. -/
theorem maxBySnd_ge (ps : List (ContentType × Nat)) :
    ∀ p r, (r = p ∨ r ∈ ps) → r.2 ≤ (maxBySnd p ps).2 := by
  induction ps with
  | nil =>
      intro p r h
      rcases h with h | h
      · rw [h]
        exact Nat.le_refl _
      · exact absurd h (List.not_mem_nil r)
  | cons q ps ih =>
      intro p r h
      simp only [maxBySnd]
      have hp2 : p.2 ≤ (if p.2 < q.2 then q else p).2 := by
        by_cases hc : p.2 < q.2
        · rw [if_pos hc]
          omega
        · rw [if_neg hc]
      have hq2 : q.2 ≤ (if p.2 < q.2 then q else p).2 := by
        by_cases hc : p.2 < q.2
        · rw [if_pos hc]
        · rw [if_neg hc]
          omega
      have hend := ih (if p.2 < q.2 then q else p)
      rcases h with h | h
      · rw [h]
        exact le_trans hp2 (hend _ (Or.inl rfl))
      · rcases List.mem_cons.mp h with h | h
        · rw [h]
          exact le_trans hq2 (hend _ (Or.inl rfl))
        · exact hend r (Or.inr h)

/-- Folding the sampled values tallies exactly the per-type counts of the
non-empty values. -/
theorem foldTally_cnt (vals : List Str) :
    ∀ (acc : List (ContentType × Nat)) (t : ContentType),
      tallyCnt (vals.foldl (fun acc v =>
          if v.isEmpty then acc else tallyAdd acc (detect_content_type v)) acc) t
        = tallyCnt acc t
          + vals.countP (fun v => !v.isEmpty && detect_content_type v == t) := by
  induction vals with
  | nil =>
      intro acc t
      simp
  | cons v vs ih =>
      intro acc t
      rw [List.foldl_cons, List.countP_cons, ih]
      by_cases hv : v.isEmpty = true
      · simp [hv]
      · simp only [hv, Bool.false_eq_true, if_false, tallyCnt_add]
        by_cases hd : detect_content_type v = t
        · simp only [hd, if_pos rfl]
          simp [hv, hd]
          omega
        · simp only [if_neg hd]
          simp [hv, hd]

/-- Folding the sampled values preserves distinctness of tally keys. -/
theorem foldTally_pairwise (vals : List Str) :
    ∀ acc, keysDistinct acc →
      keysDistinct (vals.foldl (fun acc v =>
        if v.isEmpty then acc else tallyAdd acc (detect_content_type v)) acc) := by
  induction vals with
  | nil =>
      intro acc h
      exact h
  | cons v vs ih =>
      intro acc h
      rw [List.foldl_cons]
      by_cases hv : v.isEmpty = true
      · simp only [hv, if_true]
        exact ih acc h
      · simp only [hv, Bool.false_eq_true, if_false]
        exact ih _ (tallyAdd_pairwise acc _ h)

/-- Folding only empty values leaves the tally unchanged. -/
theorem foldTally_nil (vals : List Str)
    (h : ∀ v ∈ vals, v.isEmpty = true) :
    ∀ acc, vals.foldl (fun acc v =>
        if v.isEmpty then acc else tallyAdd acc (detect_content_type v)) acc
      = acc := by
  induction vals with
  | nil =>
      intro acc
      rfl
  | cons v vs ih =>
      intro acc
      rw [List.foldl_cons]
      have hv : v.isEmpty = true := h v (List.mem_cons_self _ _)
      simp only [hv, if_true]
      exact ih (fun w hw => h w (List.mem_cons_of_mem _ hw)) acc

/-- buildTally is the fold of the tally update over the values. -/
theorem buildTally_eq (vals : List Str) :
    buildTally vals = vals.foldl (fun acc v =>
      if v.isEmpty then acc else tallyAdd acc (detect_content_type v)) [] := rfl

/-- C6: analyze_column samples exactly the first min(100, row_count) rows,
tallies the classification of the non-empty sampled values, and returns
a pair whose count is the maximum tally and is the tally of the returned
type; a type with a strictly largest tally is returned, and with no
non-empty sampled value the result is (unknown, 0). -/
theorem claim_analyze_majority (col : List (Option Str)) :
    (analyze_column col).2 =
      ((col.take (min 100 col.length)).map cellText).countP
        (fun v => !v.isEmpty && detect_content_type v == (analyze_column col).1)
    ∧ (∀ t : ContentType,
        ((col.take (min 100 col.length)).map cellText).countP
            (fun v => !v.isEmpty && detect_content_type v == t)
          ≤ (analyze_column col).2)
    ∧ ((∀ v ∈ (col.take (min 100 col.length)).map cellText, v.isEmpty = true) →
        analyze_column col = (ContentType.unknown, 0))
    ∧ analyze_column col = analyze_column (col.take 100)
    ∧ (∀ t : ContentType,
        (∀ u : ContentType, u ≠ t →
            ((col.take (min 100 col.length)).map cellText).countP
              (fun v => !v.isEmpty && detect_content_type v == u)
            < ((col.take (min 100 col.length)).map cellText).countP
              (fun v => !v.isEmpty && detect_content_type v == t)) →
        (analyze_column col).1 = t) := by
  have hana : analyze_column col =
      (match buildTally ((col.take (min 100 col.length)).map cellText) with
       | [] => (ContentType.unknown, 0)
       | p :: ps => maxBySnd p ps) := rfl
  have hcnt : ∀ t : ContentType,
      tallyCnt (buildTally ((col.take (min 100 col.length)).map cellText)) t
        = ((col.take (min 100 col.length)).map cellText).countP
            (fun v => !v.isEmpty && detect_content_type v == t) := by
    intro t
    rw [buildTally_eq, foldTally_cnt]
    simp [tallyCnt]
  have hsample : (col.take 100).take (min 100 (col.take 100).length)
      = col.take (min 100 col.length) := by
    rw [List.length_take, List.take_take]
    congr 1
    omega
  have hconj4 : analyze_column col = analyze_column (col.take 100) := by
    simp only [analyze_column]
    rw [hsample]
  cases htal : buildTally ((col.take (min 100 col.length)).map cellText) with
  | nil =>
      rw [htal] at hana
      refine ⟨?_, ?_, ?_, hconj4, ?_⟩
      · rw [hana]
        have h1 := hcnt ContentType.unknown
        rw [htal] at h1
        simp only [tallyCnt] at h1
        exact h1
      · intro t
        have h1 := hcnt t
        rw [htal] at h1
        simp only [tallyCnt] at h1
        rw [hana]
        omega
      · intro _
        exact hana
      · intro t ht
        by_contra hne
        have hlt := ht (analyze_column col).1 hne
        have h1 := hcnt t
        have h2 := hcnt ((analyze_column col).1)
        rw [htal] at h1 h2
        simp only [tallyCnt] at h1 h2
        omega
  | cons p ps =>
      rw [htal] at hana
      have hdist : keysDistinct (p :: ps) := by
        have hd := foldTally_pairwise
          ((col.take (min 100 col.length)).map cellText) [] List.Pairwise.nil
        rw [← buildTally_eq, htal] at hd
        exact hd
      have hmem : maxBySnd p ps ∈ p :: ps := by
        rcases maxBySnd_mem ps p with h | h
        · rw [h]
          exact List.mem_cons_self _ _
        · exact List.mem_cons_of_mem _ h
      have hfst : tallyCnt (p :: ps) (maxBySnd p ps).1 = (maxBySnd p ps).2 :=
        cnt_mem _ hdist _ hmem
      have hconj1 : (analyze_column col).2 =
          ((col.take (min 100 col.length)).map cellText).countP
            (fun v => !v.isEmpty && detect_content_type v == (analyze_column col).1) := by
        rw [hana]
        have h1 := hcnt ((maxBySnd p ps).1)
        rw [htal, hfst] at h1
        exact h1
      have hconj2 : ∀ t : ContentType,
          ((col.take (min 100 col.length)).map cellText).countP
              (fun v => !v.isEmpty && detect_content_type v == t)
            ≤ (analyze_column col).2 := by
        intro t
        rw [hana]
        have hct := hcnt t
        rw [htal] at hct
        rcases cnt_cases (p :: ps) t with h0 | ⟨q, hq, _, hqc⟩
        · rw [h0] at hct
          omega
        · have hle : q.2 ≤ (maxBySnd p ps).2 := by
            refine maxBySnd_ge ps p q ?_
            rcases List.mem_cons.mp hq with h | h
            · exact Or.inl h
            · exact Or.inr h
          rw [← hct, ← hqc]
          exact hle
      refine ⟨hconj1, hconj2, ?_, hconj4, ?_⟩
      · intro hall
        have hnil := foldTally_nil _ hall ([] : List (ContentType × Nat))
        rw [← buildTally_eq, htal] at hnil
        exact absurd hnil (List.cons_ne_nil p ps)
      · intro t ht
        by_contra hne
        have hlt := ht (analyze_column col).1 hne
        have h2 := hconj2 t
        rw [hconj1] at h2
        omega

/-- The analyzer scenario from the specification: two emails and a note
profile as (Email, 2). -/
theorem analyze_mixed_scenario : analyze_column demoMixedCol = (ContentType.email, 2) := by
  decide
